import Mathlib

/- Verification of the workflow engine of this repository: retry policies,
   failure handling, condition evaluation, variable interpolation and git
   platform detection.  The engine's effectful boundaries (file system, git
   processes, the language model, the progress sink, cancellation) are
   modelled as explicit environment records; everything that is pure string
   and control-flow logic in the source is embedded directly.  Strings are
   modelled as Lean strings (lists of characters); the regular expressions
   of the source are embedded as equivalent explicit scanners (each regex
   used by the source is backtracking-free because its adjacent character
   classes are disjoint, so a greedy scanner computes the same match). -/

/-- Characters matched by the JavaScript regex class for whitespace and
trimmed by trim, restricted to the ASCII range plus no-break space (the
only whitespace code points occurring in this development). -/
def jsWs (c : Char) : Bool :=
  c == ' ' || c == '\t' || c == '\n' || c == '\r' || c == '\x0b' || c == '\x0c' || c == '\u00a0'

/-- JavaScript trim on a character list: whitespace removed at both ends. -/
def jsTrimL (s : List Char) : List Char :=
  ((s.dropWhile jsWs).reverse.dropWhile jsWs).reverse

/-- JavaScript trim on strings. -/
def jsTrimS (s : String) : String := String.mk (jsTrimL s.toList)

/-- Decides whether the first list is a prefix of the second. -/
def startsWithL : List Char → List Char → Bool
  | [], _ => true
  | _ :: _, [] => false
  | p :: ps, c :: cs => p == c && startsWithL ps cs

/-- Decides whether the first list occurs as a contiguous sublist of the
second (JavaScript includes; the empty pattern is contained everywhere). -/
def containsL (p : List Char) : List Char → Bool
  | [] => startsWithL p []
  | c :: cs => startsWithL p (c :: cs) || containsL p cs

/-- JavaScript startsWith on strings. -/
def jsStartsWith (s p : String) : Bool := startsWithL p.toList s.toList

/-- JavaScript includes on strings. -/
def jsIncludes (s sub : String) : Bool := containsL sub.toList s.toList

/-- JavaScript toLowerCase, on the ASCII letters that occur here. -/
def toLowerS (s : String) : String := String.mk (s.toList.map Char.toLower)

/-- JavaScript slice(0, n) on strings (first n characters). -/
def sliceS (s : String) (n : Nat) : String := String.mk (s.toList.take n)

/-- Drops the first list from the front of the second, or fails. -/
def dropPrefixL : List Char → List Char → Option (List Char)
  | [], s => some s
  | _ :: _, [] => none
  | p :: ps, c :: cs => if p == c then dropPrefixL ps cs else none

/-- Base-ten numeral value of a digit list (parseInt of a digit capture). -/
def parseDigits (ds : List Char) : Nat :=
  ds.foldl (fun n c => n * 10 + (c.toNat - '0'.toNat)) 0

/-- Attempts the source's retry regex at the head of the list: the literal
retry, optional whitespace, an opening parenthesis, optional whitespace, the
literal max, optional whitespace, a colon, optional whitespace, one or more
digits, optional whitespace, a closing parenthesis.  Greedy scanning is
exact here because every adjacent pair of classes is disjoint. -/
def tryRetryAt (s : List Char) : Option Nat := do
  let r1 ← dropPrefixL "retry".toList s
  let r2 := r1.dropWhile jsWs
  let r3 ← dropPrefixL ['('] r2
  let r4 := r3.dropWhile jsWs
  let r5 ← dropPrefixL "max".toList r4
  let r6 := r5.dropWhile jsWs
  let r7 ← dropPrefixL [':'] r6
  let r8 := r7.dropWhile jsWs
  let ds := r8.takeWhile Char.isDigit
  if ds.isEmpty then none else
  let r9 := (r8.drop ds.length).dropWhile jsWs
  let _ ← dropPrefixL [')'] r9
  pure (parseDigits ds)

/-- Leftmost match of the retry regex anywhere in the list, as the source's
unanchored match does. -/
def findRetry : List Char → Option Nat
  | [] => none
  | c :: cs => (tryRetryAt (c :: cs)).orElse (fun _ => findRetry cs)

/-- parseRetry of the source: the retry count captured by the regex, zero
for an absent, empty or non-matching policy string. -/
def parseRetry (onFail : Option String) : Nat :=
  match onFail with
  | none => 0
  | some s => if s = "" then 0 else (findRetry s.toList).getD 0

/-- StepResult of the source: per-step outcome record. -/
structure StepResult where
  id : String
  passed : Bool
  output : String
  skipped : Bool
  failReason : Option String := none
deriving DecidableEq

/-- WorkflowStep of the source: one step of a workflow definition.  The
field named output is the captured-variable name of the step. -/
structure WorkflowStep where
  id : String
  type : String
  agent : Option String := none
  prompt : Option String := none
  command : Option String := none
  input : Option String := none
  output : Option String := none
  expect : Option String := none
  on_fail : Option String := none
  condition : Option String := none
  description : Option String := none
deriving DecidableEq

/-- WorkflowRunResult of the source: the aggregate outcome of a run. -/
structure WorkflowRunResult where
  workflowName : String
  passed : Bool
  steps : List StepResult
  abortedAt : Option String := none
deriving DecidableEq

/-- Lookup in an association list modelling a JavaScript Map (get). -/
def assocGet {α : Type} (m : List (String × α)) (k : String) : Option α :=
  (m.find? (fun p => p.1 == k)).map Prod.snd

/-- Update in an association list modelling a JavaScript Map (set):
prepending overwrites because lookup returns the first binding. -/
def assocSet {α : Type} (m : List (String × α)) (k : String) (v : α) : List (String × α) :=
  (k, v) :: m

/-- Truthiness of an optional JavaScript string: undefined and the empty
string are falsy. -/
def jsTruthyStr : Option String → Bool
  | none => false
  | some s => s != ""

/-- The retry loop of the run method, from a given attempt index: run the
dispatch, stop on success, otherwise advance while attempts remain.  The
first component is the final attempt's result, the second the number of
dispatch invocations performed.  The fuel argument remaining equals the
number of retries still allowed (maxRetries minus the attempt index). -/
def runAttemptsAux (d : Nat → StepResult) : Nat → Nat → StepResult × Nat
  | remaining, attempt =>
    let r := d attempt
    if r.passed then (r, 1)
    else
      match remaining with
      | 0 => (r, 1)
      | rem + 1 =>
        let p := runAttemptsAux d rem (attempt + 1)
        (p.1, p.2 + 1)

/-- The full retry loop of the run method: attempts start at zero and at
most maxRetries retries follow the first attempt. -/
def runStepLoop (d : Nat → StepResult) (maxRetries : Nat) : StepResult × Nat :=
  runAttemptsAux d maxRetries 0

/-- Attempts the interpolation placeholder regex at the head of the list:
two opening braces, one or more characters other than a closing brace
(greedy, exact since the following literal is a closing brace), then two
closing braces.  Returns the raw captured key and the remainder. -/
def tryPlaceholder (s : List Char) : Option (String × List Char) :=
  match s with
  | '\x7b' :: '\x7b' :: rest =>
    let key := rest.takeWhile (fun c => c != '\x7d')
    let r2 := rest.dropWhile (fun c => c != '\x7d')
    if key.isEmpty then none
    else
      match r2 with
      | '\x7d' :: '\x7d' :: r3 => some (String.mk key, r3)
      | _ => none
  | _ => none

/-- Single left-to-right pass of interpolate: each placeholder is replaced
by the store's value at the trimmed key, or left as its own matched text
when the key is unset; replacement text is never rescanned.  The fuel
argument bounds recursion and exceeds the list length at every call. -/
def interpolateF (store : List (String × String)) : Nat → List Char → List Char
  | _, [] => []
  | 0, s => s
  | fuel + 1, c :: cs =>
    match tryPlaceholder (c :: cs) with
    | some (key, rest) =>
      (match assocGet store (jsTrimS key) with
       | some v => v.toList
       | none => '\x7b' :: '\x7b' :: (key.toList ++ ['\x7d', '\x7d'])) ++
      interpolateF store fuel rest
    | none => c :: interpolateF store fuel cs

/-- interpolate of the source: replaces every placeholder occurrence in a
single pass over the text. -/
def interpolate (text : String) (store : List (String × String)) : String :=
  String.mk (interpolateF store (text.toList.length + 1) text.toList)

/-- Whether a placeholder occurrence starts anywhere in the list. -/
def hasPlaceholder : List Char → Bool
  | [] => false
  | c :: cs => (tryPlaceholder (c :: cs)).isSome || hasPlaceholder cs

/-- Characters of step identifiers in condition expressions: ASCII letters,
digits, underscore and hyphen, as in the source's identifier class. -/
def isIdChar (c : Char) : Bool :=
  c.isAlpha || c.isDigit || c == '_' || c == '-'

/-- Attempts one step-reference regex match at the head of the list: the
literal steps followed by a dot, a nonempty greedy identifier run, then the
given literal suffix (the suffix starts with a dot, which is not an
identifier character, so greedy scanning is exact).  Returns the captured
identifier and the remainder. -/
def tryStepRef (suffix : List Char) (s : List Char) : Option (String × List Char) :=
  match dropPrefixL "steps.".toList s with
  | none => none
  | some r1 =>
    let idc := r1.takeWhile isIdChar
    if idc.isEmpty then none
    else
      match dropPrefixL suffix (r1.drop idc.length) with
      | none => none
      | some r2 => some (String.mk idc, r2)

/-- Left-to-right global replacement of step references with the lookup's
text, as the source's regex replace does.  The fuel argument bounds
recursion and exceeds the list length at every call. -/
def substRefsF (suffix : List Char) (lookup : String → String) : Nat → List Char → List Char
  | _, [] => []
  | 0, s => s
  | fuel + 1, c :: cs =>
    match tryStepRef suffix (c :: cs) with
    | some (idName, rest) => (lookup idName).toList ++ substRefsF suffix lookup fuel rest
    | none => c :: substRefsF suffix lookup fuel cs

/-- Global replacement entry point with sufficient fuel. -/
def substRefs (suffix : List Char) (lookup : String → String) (s : List Char) : List Char :=
  substRefsF suffix lookup (s.length + 1) s

/-- String rendering of a JavaScript boolean. -/
def jsBoolStr (b : Bool) : String := if b then "true" else "false"

/-- The two substitution passes of evaluateCondition: passed references
first, skipped references on the substituted text, unknown identifiers
rendered as false. -/
def substCond (condition : String) (results : List (String × StepResult)) : List Char :=
  let e1 := substRefs ".passed".toList
    (fun idName =>
      match assocGet results idName with
      | some r => jsBoolStr r.passed
      | none => "false")
    condition.toList
  substRefs ".skipped".toList
    (fun idName =>
      match assocGet results idName with
      | some r => jsBoolStr r.skipped
      | none => "false")
    e1

/-- The character class of the source's safety test before evaluation: the
letters of the boolean literals, the logical operator characters,
parentheses and whitespace. -/
def safeChar (c : Char) : Bool :=
  c == 't' || c == 'r' || c == 'u' || c == 'e' ||
  c == 'f' || c == 'a' || c == 'l' || c == 's' ||
  c == '&' || c == '|' || c == '!' || c == '(' || c == ')' || jsWs c

/-- Tokens of the boolean expression language reachable through the safety
character class: boolean literals, other identifiers (a runtime reference
error when evaluated), the binary and unary operators, parentheses. -/
inductive JsTok where
  | lit (b : Bool)
  | ident (s : String)
  | andand
  | oror
  | amp
  | bar
  | bang
  | lpar
  | rpar
deriving DecidableEq

/-- Runtime values of the evaluated fragment: booleans, and the small
integers produced by the bitwise operators. -/
inductive JsVal where
  | b (x : Bool)
  | n (i : Int)
deriving DecidableEq

/-- JavaScript truthiness of a value. -/
def jsTruthy : JsVal → Bool
  | JsVal.b x => x
  | JsVal.n i => i != 0

/-- JavaScript integer conversion of a value; the values reachable in the
evaluated fragment are booleans and the nonnegative bits they produce. -/
def jsToI : JsVal → Int
  | JsVal.b true => 1
  | JsVal.b false => 0
  | JsVal.n i => i

/-- Bitwise conjunction on the nonnegative integers reachable here. -/
def landI (a b : Int) : Int := Int.ofNat (a.toNat &&& b.toNat)

/-- Bitwise disjunction on the nonnegative integers reachable here. -/
def lorI (a b : Int) : Int := Int.ofNat (a.toNat ||| b.toNat)

/-- Evaluation outcome: a value, or a runtime error (reference error on an
identifier that is not a boolean literal, caught by the source and turned
into false). -/
abbrev ERes := Except Unit JsVal

/-- Logical negation on an evaluation outcome. -/
def bangE : ERes → ERes
  | Except.error e => Except.error e
  | Except.ok v => Except.ok (JsVal.b (! jsTruthy v))

/-- Combines two evaluation outcomes at a binary level: level four is the
short-circuit conjunction, level five the short-circuit disjunction (each
returns its deciding operand's value and discards a runtime error of an
unreached right operand), levels two and three the strict bitwise
operators. -/
def combineOp (lvl : Nat) (l r : ERes) : ERes :=
  match l with
  | Except.error e => Except.error e
  | Except.ok lv =>
    match lvl with
    | 4 => if jsTruthy lv then r else Except.ok lv
    | 5 => if jsTruthy lv then Except.ok lv else r
    | _ =>
      match r with
      | Except.error e => Except.error e
      | Except.ok rv =>
        Except.ok (JsVal.n (if lvl = 2 then landI (jsToI lv) (jsToI rv)
                            else lorI (jsToI lv) (jsToI rv)))

/-- Tokenizer for the safe expression fragment; fails on any character that
cannot start a token of the fragment.  The fuel argument bounds recursion
and is at least the list length at every call. -/
def tokenizeF : Nat → List Char → Option (List JsTok)
  | _, [] => some []
  | 0, _ => none
  | fuel + 1, c :: cs =>
    if jsWs c then tokenizeF fuel cs
    else if c.isAlpha then
      let w := (c :: cs).takeWhile Char.isAlpha
      let rest := (c :: cs).drop w.length
      let t := if w = "true".toList then JsTok.lit true
               else if w = "false".toList then JsTok.lit false
               else JsTok.ident (String.mk w)
      (tokenizeF fuel rest).map (fun ts => t :: ts)
    else if c == '&' then
      match cs with
      | '&' :: cs2 => (tokenizeF fuel cs2).map (fun ts => JsTok.andand :: ts)
      | _ => (tokenizeF fuel cs).map (fun ts => JsTok.amp :: ts)
    else if c == '|' then
      match cs with
      | '|' :: cs2 => (tokenizeF fuel cs2).map (fun ts => JsTok.oror :: ts)
      | _ => (tokenizeF fuel cs).map (fun ts => JsTok.bar :: ts)
    else if c == '!' then (tokenizeF fuel cs).map (fun ts => JsTok.bang :: ts)
    else if c == '(' then (tokenizeF fuel cs).map (fun ts => JsTok.lpar :: ts)
    else if c == ')' then (tokenizeF fuel cs).map (fun ts => JsTok.rpar :: ts)
    else none

/-- The binary operator token of each binary precedence level. -/
def opOf (lvl : Nat) : JsTok :=
  match lvl with
  | 2 => JsTok.amp
  | 3 => JsTok.bar
  | 4 => JsTok.andand
  | _ => JsTok.oror

/-- Parser modes: descending into a precedence level, or extending a
left-associative chain at a level with an accumulated outcome. -/
inductive PMode where
  | parse (level : Nat)
  | chain (level : Nat) (acc : ERes)

/-- Recursive-descent parser and evaluator for the fragment, mirroring the
grammar the host evaluator accepts on the safe character class: the
disjunction level five over conjunction level four over bitwise levels over
unary negation over literals, identifiers and parentheses.  Evaluation is
performed during parsing; runtime errors flow through outcomes so that a
short-circuited operand's error is discarded exactly as in the host.  The
fuel argument only bounds recursion: between two consecutive token
consumptions at most seven calls occur (one full level descent), so the
fuel chosen at the entry point is never exhausted. -/
def parseC : Nat → PMode → List JsTok → Option (ERes × List JsTok)
  | 0, _, _ => none
  | fuel + 1, PMode.parse 0, ts =>
    match ts with
    | JsTok.lit b :: r => some (Except.ok (JsVal.b b), r)
    | JsTok.ident _ :: r => some (Except.error (), r)
    | JsTok.lpar :: r =>
      match parseC fuel (PMode.parse 5) r with
      | some (v, JsTok.rpar :: r2) => some (v, r2)
      | _ => none
    | _ => none
  | fuel + 1, PMode.parse 1, ts =>
    match ts with
    | JsTok.bang :: r =>
      match parseC fuel (PMode.parse 1) r with
      | some (v, r2) => some (bangE v, r2)
      | none => none
    | _ => parseC fuel (PMode.parse 0) ts
  | fuel + 1, PMode.parse (l + 2), ts =>
    match parseC fuel (PMode.parse (l + 1)) ts with
    | some (v, r) => parseC fuel (PMode.chain (l + 2) v) r
    | none => none
  | fuel + 1, PMode.chain lvl acc, ts =>
    match ts with
    | t :: r =>
      if t = opOf lvl then
        match parseC fuel (PMode.parse (lvl - 1)) r with
        | some (v, r2) => parseC fuel (PMode.chain lvl (combineOp lvl acc v)) r2
        | none => none
      else some (acc, ts)
    | [] => some (acc, [])

/-- Full evaluation of a substituted, safety-checked expression, as the
host's construction and call of the expression does: tokenize, parse the
whole token list at the lowest precedence, demand full consumption, and
coerce the outcome to a boolean with errors becoming false. -/
def evalJsCond (e : List Char) : Bool :=
  match tokenizeF e.length e with
  | none => false
  | some ts =>
    match parseC (7 * (ts.length + 1)) (PMode.parse 5) ts with
    | some (Except.ok v, []) => jsTruthy v
    | _ => false

/-- evaluateCondition of the source: substitute passed and skipped step
references, reject any resulting text that is empty or contains a character
outside the safety class, and otherwise evaluate the boolean expression;
every failure path yields false, and the function is total by
construction. -/
def evaluateCondition (condition : String) (results : List (String × StepResult)) : Bool :=
  let e := substCond condition results
  if !e.isEmpty && e.all safeChar then evalJsCond e else false

/-- checkExpect of the source: an absent or empty expectation always
passes, otherwise the expectation must occur in the output. -/
def checkExpect (output : String) (expect : Option String) : Bool :=
  if !jsTruthyStr expect then true
  else jsIncludes output (expect.getD "")

/-- detectPlatform of the source: substring checks on the lowered remote
URL, in order. -/
def detectPlatform (remoteUrl : String) : String :=
  let u := toLowerS remoteUrl
  if jsIncludes u "github.com" then "github"
  else if jsIncludes u "gitlab.com" || jsIncludes u "gitlab" then "gitlab"
  else if jsIncludes u "bitbucket.org" then "bitbucket"
  else if jsIncludes u ":29418" || jsIncludes u "/a/" || jsIncludes u "gerrit" then "gerrit"
  else "unknown"

/-- buildPushCmd of the source: the platform-appropriate push command (the
switch of the source, with its three fall-through cases spelled out). -/
def buildPushCmd (platform : String) (branch : String) : String :=
  if platform = "github" then "git push origin HEAD:" ++ branch
  else if platform = "gitlab" then "git push origin HEAD:" ++ branch
  else if platform = "bitbucket" then "git push origin HEAD:" ++ branch
  else if platform = "gerrit" then "git push origin HEAD:refs/for/" ++ branch
  else "git push origin HEAD:" ++ branch

/-- Whether the remainder of a fence body closes the fenced block here: an
optional newline, three backticks, then only whitespace to the end (the
lazy content capture stops at the first position where this holds). -/
def fenceCloseAt (rem : List Char) : Bool :=
  (match rem with
   | '\n' :: r => (dropPrefixL "```".toList r).elim false (fun r2 => r2.all jsWs)
   | _ => false) ||
  (dropPrefixL "```".toList rem).elim false (fun r2 => r2.all jsWs)

/-- Lazy scan of a fence body for the shortest content whose remainder
closes the block. -/
def fmScanFence : List Char → List Char → Option (List Char)
  | acc, rem =>
    if fenceCloseAt rem then some acc.reverse
    else
      match rem with
      | [] => none
      | c :: cs => fmScanFence (c :: acc) cs

/-- The inline single-backtick wrapper: a backtick, one or more characters
other than a backtick, a final backtick at the end. -/
def inlineTick (t : List Char) : Option (List Char) :=
  match t with
  | '`' :: rest =>
    let mid := rest.takeWhile (fun c => c != '`')
    if mid.isEmpty then none
    else
      match rest.drop mid.length with
      | ['`'] => some mid
      | _ => none
  | _ => none

/-- Trims, then tries the inline single-backtick match, else returns the
trimmed text, shared tail of stripCodeFences. -/
def inlineOrTrim (t : List Char) : String :=
  match inlineTick t with
  | some mid => String.mk (jsTrimL mid)
  | none => String.mk t

/-- stripCodeFences of the source: on the trimmed text, a leading fence
line (three backticks plus a language tag up to the first newline), a lazy
content capture, and a closing fence followed only by whitespace; the inner
content is trimmed.  Otherwise an inline single-backtick wrapper is
stripped, otherwise the trimmed text is returned. -/
def stripCodeFences (text : String) : String :=
  let t := jsTrimL text.toList
  match dropPrefixL "```".toList t with
  | some r1 =>
    let firstLine := r1.takeWhile (fun c => c != '\n')
    (match r1.drop firstLine.length with
     | '\n' :: body =>
       (match fmScanFence [] body with
        | some inner => String.mk (jsTrimL inner)
        | none => inlineOrTrim t)
     | _ => inlineOrTrim t)
  | none => inlineOrTrim t

/-- Consumes a whitespace run that contains a newline, up to its last
newline (the greedy whitespace star followed by a newline literal
backtracks to exactly there), as the frontmatter regex tail does. -/
def fmTail (t : List Char) : Option (List Char) :=
  let run := t.takeWhile jsWs
  match run.reverse.findIdx? (fun c => c == '\n') with
  | some j => some (t.drop (run.length - 1 - j + 1))
  | none => none

/-- Lazy scan for the closing delimiter of a frontmatter block: at each
position, three hyphens followed by a whitespace run containing a newline;
on failure the lazy content grows by one character. -/
def findFMEnd : List Char → Option (List Char)
  | [] => none
  | c :: cs =>
    match (dropPrefixL "---".toList (c :: cs)).bind fmTail with
    | some rest => some rest
    | none => findFMEnd cs

/-- The frontmatter-stripping replace of the source, anchored at the start:
three hyphens, lazy content, three hyphens, whitespace through a final
newline; on a match the matched prefix is removed, otherwise the text is
unchanged. -/
def stripFrontmatter (s : List Char) : List Char :=
  match dropPrefixL "---".toList s with
  | some r =>
    (match findFMEnd r with
     | some rest => rest
     | none => s)
  | none => s

/-- The anchored variable-reference regex of resolveInput: two opening
braces, one or more characters none of which is a line terminator, two
closing braces at the very end; returns the captured middle. -/
def varRefKey (s : String) : Option String :=
  let l := s.toList
  if startsWithL ['\x7b', '\x7b'] l && startsWithL ['\x7d', '\x7d'] l.reverse &&
      decide (5 ≤ l.length) then
    let mid := (l.drop 2).take (l.length - 4)
    if mid.all (fun c => c != '\n' && c != '\r' && c != '\u2028' && c != '\u2029') then
      some (String.mk mid)
    else none
  else none

/-- Outcomes of the fixed git commands resolveInput can run; a missing
value models the external process throwing. -/
structure GitExec where
  diffStaged : Option String
  diffLastCommit : Option String
  logLast : Option String

/-- Environment of the step runners, modelling every effectful boundary the
source crosses: the agent document loader (an empty body means the file is
missing, as in loadAgentPrompt), model availability from selectModel, the
language model's concatenated streamed response to a message list, the git
command outcomes before and after the one auto-stage attempt, whether that
attempt's process succeeds, workspace presence, the prompt file loader, and
the shell executor (error carries the stderr text of a throw).  The
progress stream is write-only in the source and the cancellation token is
modelled as never cancelled. -/
structure StepEnv where
  agentBody : String → String
  modelAvailable : Bool
  llm : List String → String
  exec0 : GitExec
  exec1 : GitExec
  addUOk : Bool
  hasWorkspace : Bool
  promptContent : String → Option String
  shellExec : String → Except String String

/-- resolveInput of the source: an absent or empty input resolves to the
empty string; an anchored variable reference resolves through the store
(empty when unset); the three built-in source names run their fixed
commands, with a fallback literal on a throw and trimming only for the last
commit message; anything else is interpolated. -/
def resolveInput (exec : GitExec) (input : Option String) (vars : List (String × String)) : String :=
  match input with
  | none => ""
  | some s =>
    if s = "" then ""
    else
      match varRefKey s with
      | some key => (assocGet vars (jsTrimS key)).getD ""
      | none =>
        if s = "git_diff_staged" then
          match exec.diffStaged with
          | some t => t
          | none => "(could not resolve input: " ++ s ++ ")"
        else if s = "git_diff_last_commit" then
          match exec.diffLastCommit with
          | some t => t
          | none => "(could not resolve input: " ++ s ++ ")"
        else if s = "commit_message_last" then
          match exec.logLast with
          | some t => jsTrimS t
          | none => "(could not resolve input: " ++ s ++ ")"
        else interpolate s vars

/-- The system message runAgentStep sends ahead of the agent body. -/
def agentSystemMsg (body : String) : String :=
  "[SYSTEM] You are a code reviewer. Apply the instructions below autonomously. " ++
  "Do NOT ask for more input. Review only what is provided in the diff below. " ++
  "End your response with exactly `[PASS]` or `[FAIL]` on its own line.\n\n" ++
  "## Agent Instructions\n" ++ body

/-- The user message carrying the resolved input diff. -/
def agentDiffMsg (inputText : String) : String :=
  "## Staged Diff to Review\n```diff\n" ++ inputText ++ "\n```"

/-- runAgentStep of the source, paired with the number of auto-stage
invocations it performs: missing agent document fails at once; an empty
staged diff triggers exactly one auto-stage and one re-resolution (the
original text is kept when the staging process throws); a declared input
that is still blank fails with a reason naming the situation; then model
selection, the model call, and the expectation check decide the outcome. -/
def runAgentStep (env : StepEnv) (step : WorkflowStep) (vars : List (String × String)) :
    StepResult × Nat :=
  let agentName := step.agent.getD ""
  let body := env.agentBody agentName
  if body = "" then
    ({ id := step.id, passed := false, output := "", skipped := false,
       failReason := some (".github/agents/" ++ agentName ++ ".agent.md not found") }, 0)
  else
    let input0 := resolveInput env.exec0 step.input vars
    let doStage := (step.input == some "git_diff_staged") && (jsTrimS input0 == "")
    let inputText :=
      if doStage then
        (if env.addUOk then resolveInput env.exec1 step.input vars else input0)
      else input0
    let addCount := if doStage then 1 else 0
    if jsTruthyStr step.input && (jsTrimS inputText == "") then
      ({ id := step.id, passed := false, output := "", skipped := false,
         failReason := some (if step.input == some "git_diff_staged" then
             "No changes to stage — working tree is clean"
           else "Input `" ++ step.input.getD "" ++ "` resolved to empty") }, addCount)
    else if !env.modelAvailable then
      ({ id := step.id, passed := false, output := "", skipped := false,
         failReason := some "No LM available" }, addCount)
    else
      let output := env.llm [agentSystemMsg body, agentDiffMsg inputText]
      if checkExpect output step.expect then
        ({ id := step.id, passed := true, output := output, skipped := false }, addCount)
      else
        ({ id := step.id, passed := false, output := output, skipped := false,
           failReason := some (if jsTruthyStr step.expect then
               "Expected `" ++ step.expect.getD "" ++ "` not found in output"
             else "Step failed") }, addCount)

/-- runPromptStep of the source, paired with its auto-stage count, which is
always zero: no workspace fails at once; a missing prompt file fails with a
reason naming it; the body is frontmatter-stripped, trimmed and
interpolated; the resolved input, when nonempty, is appended as a labelled
section; then the model call and the expectation check decide the outcome,
and a captured output is de-fenced. -/
def runPromptStep (env : StepEnv) (step : WorkflowStep) (vars : List (String × String)) :
    StepResult × Nat :=
  if !env.hasWorkspace then
    ({ id := step.id, passed := false, output := "", skipped := false,
       failReason := some "No workspace folder open" }, 0)
  else
    match env.promptContent (step.prompt.getD "") with
    | none =>
      ({ id := step.id, passed := false, output := "", skipped := false,
         failReason := some ("Prompt file not found: " ++ step.prompt.getD "") }, 0)
    | some raw =>
      let promptBody := interpolate (jsTrimS (String.mk (stripFrontmatter raw.toList))) vars
      let inputText := resolveInput env.exec0 step.input vars
      let fullPrompt :=
        if inputText != "" then promptBody ++ "\n\n## Input\n" ++ inputText else promptBody
      if !env.modelAvailable then
        ({ id := step.id, passed := false, output := "", skipped := false,
           failReason := some "No LM available" }, 0)
      else
        let output := env.llm [fullPrompt]
        if checkExpect output step.expect then
          let captured := if jsTruthyStr step.output then stripCodeFences output else output
          ({ id := step.id, passed := true, output := captured, skipped := false }, 0)
        else
          ({ id := step.id, passed := false, output := output, skipped := false,
             failReason := some (if jsTruthyStr step.expect then
                 "Expected `" ++ step.expect.getD "" ++ "` not found"
               else "Step failed") }, 0)

/-- runShellStep of the source, paired with its auto-stage count, which is
always zero: the command is interpolated and executed; on success the
trimmed stdout is judged by the expectation check; on a throw the stderr
text becomes the output and, truncated to two hundred characters, the
failure reason.  The step's input field is never consulted. -/
def runShellStep (env : StepEnv) (step : WorkflowStep) (vars : List (String × String)) :
    StepResult × Nat :=
  let cmd := interpolate (step.command.getD "") vars
  match env.shellExec cmd with
  | Except.ok raw =>
    let stdout := jsTrimS raw
    if checkExpect stdout step.expect then
      ({ id := step.id, passed := true, output := stdout, skipped := false }, 0)
    else
      ({ id := step.id, passed := false, output := stdout, skipped := false,
         failReason := some (if jsTruthyStr step.expect then
             "Expected `" ++ step.expect.getD "" ++ "` not found in output"
           else "Command failed") }, 0)
  | Except.error stderr =>
    ({ id := step.id, passed := false, output := stderr, skipped := false,
       failReason := some (sliceS stderr 200) }, 0)

/-- runStep of the source: dispatch on the step kind, any other kind
failing at once with a reason naming it.  The surrounding catch of the
source is unreachable here because every modelled handler is total. -/
def runStep (env : StepEnv) (step : WorkflowStep) (vars : List (String × String)) :
    StepResult × Nat :=
  if step.type = "agent" then runAgentStep env step vars
  else if step.type = "prompt" then runPromptStep env step vars
  else if step.type = "shell" then runShellStep env step vars
  else
    ({ id := step.id, passed := false, output := "", skipped := false,
       failReason := some ("unknown type: " ++ step.type) }, 0)

/-- Whether the run method skips a step: a truthy condition string that
evaluates false against the ledger. -/
def stepSkippedB (st : WorkflowStep) (ledger : List (String × StepResult)) : Bool :=
  jsTruthyStr st.condition && ! evaluateCondition (st.condition.getD "") ledger

/-- Whether the run method aborts after a step: the final result failed and
the failure policy (absent meaning abort) is abort or any retry form. -/
def abortsRun (st : WorkflowStep) (r : StepResult) : Bool :=
  !r.passed && ((st.on_fail.getD "abort") == "abort" ||
                jsStartsWith (st.on_fail.getD "abort") "retry")

/-- The run method of the source over an abstract dispatch (the attempt
index models the changing external world across retries; the source's
runStep with a fixed environment is one instance that ignores it):
condition evaluation and skipping, the retry loop, capture of a nonempty
output under a truthy capture name, ledger and result recording, and the
failure policy, with the aggregate verdict over the accumulated results.
Cancellation is modelled as never requested. -/
def runWorkflow (dispatch : WorkflowStep → List (String × String) → Nat → StepResult)
    (wfName : String) :
    List WorkflowStep → List (String × String) → List (String × StepResult) →
    List StepResult → WorkflowRunResult
  | [], _, _, acc =>
    { workflowName := wfName, passed := acc.all (fun r => r.passed || r.skipped),
      steps := acc, abortedAt := none }
  | st :: rest, vars, ledger, acc =>
    if stepSkippedB st ledger then
      let r : StepResult := { id := st.id, passed := true, output := "", skipped := true }
      runWorkflow dispatch wfName rest vars (assocSet ledger st.id r) (acc ++ [r])
    else
      let r := (runStepLoop (fun a => dispatch st vars a) (parseRetry st.on_fail)).1
      let vars2 :=
        if jsTruthyStr st.output && (r.output != "") then
          assocSet vars (st.output.getD "") r.output
        else vars
      if abortsRun st r then
        { workflowName := wfName, passed := false, steps := acc ++ [r], abortedAt := some st.id }
      else
        runWorkflow dispatch wfName rest vars2 (assocSet ledger st.id r) (acc ++ [r])

/-- A dispatch outcome that always fails, whose output records the attempt
index, so that attempts are distinguishable. -/
def cAttempt (a : Nat) : StepResult :=
  { id := "s", passed := false, output := String.mk (List.replicate a 'x'), skipped := false,
    failReason := some "fail" }

/-- A fixed failing step result. -/
def cFailR : StepResult :=
  { id := "s", passed := false, output := "", skipped := false, failReason := some "boom" }

/-- A ledger entry for a failed step named a. -/
def cFailA : StepResult :=
  { id := "a", passed := false, output := "", skipped := false, failReason := some "boom" }

/-- A dispatcher that fails every step it is given. -/
def cDispatchFail (st : WorkflowStep) (_ : List (String × String)) (_ : Nat) : StepResult :=
  { id := st.id, passed := false, output := "err", skipped := false, failReason := some "bad" }

/-- A plain shell step named a with the default failure policy. -/
def cStepA : WorkflowStep := { id := "a", type := "shell" }

/-- A plain shell step named b. -/
def cStepB : WorkflowStep := { id := "b", type := "shell" }

/-- A shell step with a two-retry failure policy. -/
def cStepRetry2 : WorkflowStep :=
  { id := "s", type := "shell", on_fail := some "retry(max: 2)" }

/-- A step named b conditional on step a having passed. -/
def cStepCondB : WorkflowStep :=
  { id := "b", type := "shell", condition := some "steps.a.passed" }

/-- A shell step with a misspelled failure policy. -/
def cStepIgnore : WorkflowStep :=
  { id := "a", type := "shell", on_fail := some "ignore" }

/-- A step of an unknown kind carrying a retry policy. -/
def cStepWeird : WorkflowStep :=
  { id := "w", type := "weird", on_fail := some "retry(max: 2)" }

/-- An agent step with no expected substring and no input. -/
def cStepAgentNoExpect : WorkflowStep :=
  { id := "r", type := "agent", agent := some "rev" }

/-- An agent step reading the staged diff. -/
def cStepAgentStaged : WorkflowStep :=
  { id := "s", type := "agent", agent := some "rev", input := some "git_diff_staged" }

/-- A prompt step reading the staged diff. -/
def cStepPromptStaged : WorkflowStep :=
  { id := "p", type := "prompt", prompt := some "sum.md", input := some "git_diff_staged" }

/-- A prompt step naming a missing prompt file, with a one-retry policy. -/
def cStepPromptRetry : WorkflowStep :=
  { id := "p", type := "prompt", prompt := some "f.md", on_fail := some "retry(max: 1)" }

/-- An environment with no agent documents and a benign world. -/
def cEnvBasic : StepEnv :=
  { agentBody := fun _ => "", modelAvailable := true, llm := fun _ => "ok",
    exec0 := { diffStaged := some "d", diffLastCommit := none, logLast := none },
    exec1 := { diffStaged := some "d", diffLastCommit := none, logLast := none },
    addUOk := true, hasWorkspace := true, promptContent := fun _ => none,
    shellExec := fun _ => Except.ok "" }

/-- An environment whose model answers with an explicit failure marker and
no pass marker. -/
def cEnvAgent : StepEnv :=
  { agentBody := fun _ => "Review the change.", modelAvailable := true,
    llm := fun _ => "Looks broken to me. [FAIL]",
    exec0 := { diffStaged := some "d", diffLastCommit := none, logLast := none },
    exec1 := { diffStaged := some "d", diffLastCommit := none, logLast := none },
    addUOk := true, hasWorkspace := true, promptContent := fun _ => none,
    shellExec := fun _ => Except.ok "" }

/-- An environment where the staged diff is empty before remediation and
still blank after it, with a prompt document available. -/
def cEnvStaged : StepEnv :=
  { agentBody := fun _ => "B", modelAvailable := true, llm := fun _ => "summary",
    exec0 := { diffStaged := some "", diffLastCommit := none, logLast := none },
    exec1 := { diffStaged := some "  ", diffLastCommit := none, logLast := none },
    addUOk := true, hasWorkspace := true, promptContent := fun _ => some "Summarise the diff.",
    shellExec := fun _ => Except.ok "" }

-- Helper lemmas ------------------------------------------------------------

theorem dropPrefixL_append (p r : List Char) : dropPrefixL p (p ++ r) = some r := by
  induction p with
  | nil => rfl
  | cons c cs ih => simp [dropPrefixL, ih]

theorem dropPrefixL_self (p : List Char) : dropPrefixL p p = some [] := by
  simpa using dropPrefixL_append p []

theorem takeWhile_append_all (p : Char → Bool) (l r : List Char)
    (hl : ∀ c ∈ l, p c = true) (hr : ∀ c, r.head? = some c → p c = false) :
    (l ++ r).takeWhile p = l := by
  induction l with
  | nil =>
    cases r with
    | nil => rfl
    | cons c cs => simp [List.takeWhile_cons, hr c rfl]
  | cons c cs ih =>
    simp only [List.cons_append, List.takeWhile_cons, hl c (by simp)]
    simpa using ih (fun x hx => hl x (by simp [hx]))

theorem dropWhile_append_all (p : Char → Bool) (l r : List Char)
    (hl : ∀ c ∈ l, p c = true) (hr : ∀ c, r.head? = some c → p c = false) :
    (l ++ r).dropWhile p = r := by
  induction l with
  | nil =>
    cases r with
    | nil => rfl
    | cons c cs => simp [List.dropWhile_cons, hr c rfl]
  | cons c cs ih =>
    simp only [List.cons_append, List.dropWhile_cons, hl c (by simp)]
    simpa using ih (fun x hx => hl x (by simp [hx]))

theorem dropLen_append (l r : List Char) : (l ++ r).drop l.length = r := by
  induction l with
  | nil => rfl
  | cons c cs ih => simpa using ih

theorem toList_append (a b : String) : (a ++ b).toList = a.toList ++ b.toList := by
  cases a; cases b; rfl

theorem mk_toList (s : String) : String.mk s.toList = s := by
  cases s; rfl

theorem runAttemptsAux_allFail (d : Nat → StepResult)
    (hfail : ∀ a, (d a).passed = false) :
    ∀ rem att, runAttemptsAux d rem att = (d (att + rem), rem + 1) := by
  intro rem
  induction rem with
  | zero => intro att; simp [runAttemptsAux, hfail att]
  | succ n ih =>
    intro att
    have h1 : att + 1 + n = att + (n + 1) := by omega
    simp [runAttemptsAux, hfail att, ih (att + 1), h1]

theorem runStepLoop_allFail (d : Nat → StepResult) (N : Nat)
    (hfail : ∀ a, (d a).passed = false) :
    runStepLoop d N = (d N, N + 1) := by
  simpa [runStepLoop] using runAttemptsAux_allFail d hfail N 0

theorem runAttemptsAux_firstSuccess (d : Nat → StepResult) (k : Nat)
    (hk : (d k).passed = true) (hbefore : ∀ j, j < k → (d j).passed = false) :
    ∀ rem att, att ≤ k → k ≤ att + rem → runAttemptsAux d rem att = (d k, k - att + 1) := by
  intro rem
  induction rem with
  | zero =>
    intro att h1 h2
    have hak : att = k := by omega
    subst hak
    simp [runAttemptsAux, hk]
  | succ n ih =>
    intro att h1 h2
    by_cases hak : att = k
    · subst hak
      simp [runAttemptsAux, hk]
    · have hlt : att < k := lt_of_le_of_ne h1 hak
      have hf := hbefore att hlt
      have hrec := ih (att + 1) (by omega) (by omega)
      simp [runAttemptsAux, hf, hrec]
      omega

theorem runStepLoop_firstSuccess (d : Nat → StepResult) (N k : Nat)
    (hkN : k ≤ N) (hk : (d k).passed = true)
    (hbefore : ∀ j, j < k → (d j).passed = false) :
    runStepLoop d N = (d k, k + 1) := by
  simpa [runStepLoop] using
    runAttemptsAux_firstSuccess d k hk hbefore N 0 (Nat.zero_le k) (by omega)

theorem runStepLoop_zero_snd (d : Nat → StepResult) : (runStepLoop d 0).2 = 1 := by
  by_cases h : (d 0).passed <;> simp [runStepLoop, runAttemptsAux, h]

theorem runWorkflow_cons_skip
    (dispatch : WorkflowStep → List (String × String) → Nat → StepResult)
    (wfName : String) (st : WorkflowStep) (rest : List WorkflowStep)
    (vars : List (String × String)) (ledger : List (String × StepResult))
    (acc : List StepResult) (hs : stepSkippedB st ledger = true) :
    runWorkflow dispatch wfName (st :: rest) vars ledger acc =
      runWorkflow dispatch wfName rest vars
        (assocSet ledger st.id { id := st.id, passed := true, output := "", skipped := true })
        (acc ++ [{ id := st.id, passed := true, output := "", skipped := true }]) := by
  simp [runWorkflow, hs]

theorem runWorkflow_cons_noskip
    (dispatch : WorkflowStep → List (String × String) → Nat → StepResult)
    (wfName : String) (st : WorkflowStep) (rest : List WorkflowStep)
    (vars : List (String × String)) (ledger : List (String × StepResult))
    (acc : List StepResult) (hns : stepSkippedB st ledger = false) :
    runWorkflow dispatch wfName (st :: rest) vars ledger acc =
      (if abortsRun st ((runStepLoop (fun a => dispatch st vars a) (parseRetry st.on_fail)).1) then
        { workflowName := wfName, passed := false,
          steps := acc ++ [(runStepLoop (fun a => dispatch st vars a) (parseRetry st.on_fail)).1],
          abortedAt := some st.id }
      else
        runWorkflow dispatch wfName rest
          (if jsTruthyStr st.output &&
              (((runStepLoop (fun a => dispatch st vars a) (parseRetry st.on_fail)).1).output != "") then
            assocSet vars (st.output.getD "")
              ((runStepLoop (fun a => dispatch st vars a) (parseRetry st.on_fail)).1).output
          else vars)
          (assocSet ledger st.id ((runStepLoop (fun a => dispatch st vars a) (parseRetry st.on_fail)).1))
          (acc ++ [(runStepLoop (fun a => dispatch st vars a) (parseRetry st.on_fail)).1])) := by
  simp [runWorkflow, hns]

theorem runWorkflow_dispatch_congr
    (d1 d2 : WorkflowStep → List (String × String) → Nat → StepResult) (wfName : String) :
    ∀ (steps : List WorkflowStep) (vars : List (String × String))
      (ledger : List (String × StepResult)) (acc : List StepResult),
      (∀ st ∈ steps, ∀ v a, d1 st v a = d2 st v a) →
      runWorkflow d1 wfName steps vars ledger acc = runWorkflow d2 wfName steps vars ledger acc := by
  intro steps
  induction steps with
  | nil => intro vars ledger acc _; rfl
  | cons st rest ih =>
    intro vars ledger acc h
    have hst : (fun a => d1 st vars a) = (fun a => d2 st vars a) := by
      funext a; exact h st (by simp) vars a
    by_cases hs : stepSkippedB st ledger = true
    · rw [runWorkflow_cons_skip d1 wfName st rest vars ledger acc hs,
          runWorkflow_cons_skip d2 wfName st rest vars ledger acc hs]
      exact ih _ _ _ (fun s hsm v a => h s (by simp [hsm]) v a)
    · have hns : stepSkippedB st ledger = false := by simpa using hs
      rw [runWorkflow_cons_noskip d1 wfName st rest vars ledger acc hns,
          runWorkflow_cons_noskip d2 wfName st rest vars ledger acc hns, hst]
      split
      · rfl
      · exact ih _ _ _ (fun s hsm v a => h s (by simp [hsm]) v a)

theorem tryStepRef_nil (suffix : List Char) : tryStepRef suffix [] = none := rfl

theorem substRefsF_match (suffix : List Char) (f : String → String) (n : Nat)
    (s rest : List Char) (idName : String)
    (h : tryStepRef suffix s = some (idName, rest)) :
    substRefsF suffix f (n + 1) s = (f idName).toList ++ substRefsF suffix f n rest := by
  cases s with
  | nil => rw [tryStepRef_nil] at h; exact absurd h (by simp)
  | cons c cs => simp [substRefsF, h]

theorem substRefsF_nil (suffix : List Char) (f : String → String) (n : Nat) :
    substRefsF suffix f n [] = [] := by
  cases n <;> rfl

theorem tryStepRef_exact (suffix : List Char) (idStr : String)
    (hne : idStr.toList ≠ []) (hall : ∀ c ∈ idStr.toList, isIdChar c = true)
    (hhead : ∀ c, suffix.head? = some c → isIdChar c = false) :
    tryStepRef suffix ("steps.".toList ++ (idStr.toList ++ suffix)) = some (idStr, []) := by
  have h2 : (idStr.toList ++ suffix).takeWhile isIdChar = idStr.toList :=
    takeWhile_append_all isIdChar idStr.toList suffix hall hhead
  have h3 : (idStr.toList ++ suffix).drop idStr.toList.length = suffix := dropLen_append _ _
  have h4 : idStr.toList.isEmpty = false := by
    cases h : idStr.toList with
    | nil => exact absurd h hne
    | cons a l => rfl
  unfold tryStepRef
  rw [dropPrefixL_append]
  dsimp only
  rw [h2, h4, h3, dropPrefixL_self]
  simp [mk_toList]

theorem substRefs_exact (suffix : List Char) (f : String → String) (idStr : String)
    (hne : idStr.toList ≠ []) (hall : ∀ c ∈ idStr.toList, isIdChar c = true)
    (hhead : ∀ c, suffix.head? = some c → isIdChar c = false) :
    substRefs suffix f ("steps.".toList ++ (idStr.toList ++ suffix)) = (f idStr).toList := by
  have h := tryStepRef_exact suffix idStr hne hall hhead
  unfold substRefs
  rw [substRefsF_match _ _ _ _ _ _ h, substRefsF_nil]
  simp

theorem interpolateF_nil (store : List (String × String)) (n : Nat) :
    interpolateF store n [] = [] := by
  cases n <;> rfl

theorem interpolateF_id (store : List (String × String)) :
    ∀ (s : List Char), hasPlaceholder s = false → ∀ fuel, interpolateF store fuel s = s := by
  intro s
  induction s with
  | nil => intro _ fuel; exact interpolateF_nil store fuel
  | cons c cs ih =>
    intro h fuel
    rw [hasPlaceholder] at h
    obtain ⟨ha, hb⟩ := Bool.or_eq_false_iff.mp h
    have hnone : tryPlaceholder (c :: cs) = none := by
      cases hx : tryPlaceholder (c :: cs) with
      | none => rfl
      | some p => rw [hx] at ha; exact absurd ha (by simp)
    cases fuel with
    | zero => rfl
    | succ n => simp [interpolateF, hnone, ih hb n]

theorem interpolate_no_placeholder (store : List (String × String)) (t : String)
    (h : hasPlaceholder t.toList = false) :
    interpolate t store = t := by
  unfold interpolate
  rw [interpolateF_id store t.toList h, mk_toList]

theorem tryPlaceholder_exact (k : String) (rest : List Char)
    (hne : k.toList ≠ []) (hnb : ∀ c ∈ k.toList, (c != '\x7d') = true) :
    tryPlaceholder ('\x7b' :: '\x7b' :: (k.toList ++ ('\x7d' :: '\x7d' :: rest))) =
      some (k, rest) := by
  have hr : ∀ c : Char, ('\x7d' :: '\x7d' :: rest).head? = some c → (c != '\x7d') = false := by
    intro c hc
    simp at hc
    subst hc
    simp
  have h2 : (k.toList ++ ('\x7d' :: '\x7d' :: rest)).takeWhile (fun c => c != '\x7d') =
      k.toList := takeWhile_append_all _ k.toList _ hnb hr
  have h3 : (k.toList ++ ('\x7d' :: '\x7d' :: rest)).dropWhile (fun c => c != '\x7d') =
      '\x7d' :: '\x7d' :: rest := dropWhile_append_all _ k.toList _ hnb hr
  have h4 : k.toList.isEmpty = false := by
    cases h : k.toList with
    | nil => exact absurd h hne
    | cons a l => rfl
  simp only [tryPlaceholder, h2, h3, h4]
  simp [mk_toList]

theorem placeholder_shape (k : String) :
    ("\x7b\x7b" ++ k ++ "\x7d\x7d").toList =
      '\x7b' :: '\x7b' :: (k.toList ++ ('\x7d' :: '\x7d' :: [])) := by
  rw [toList_append, toList_append]
  simp

theorem interpolate_single_set (store : List (String × String)) (k v : String)
    (hne : k.toList ≠ []) (hnb : ∀ c ∈ k.toList, (c != '\x7d') = true)
    (hv : assocGet store (jsTrimS k) = some v) :
    interpolate ("\x7b\x7b" ++ k ++ "\x7d\x7d") store = v := by
  unfold interpolate
  rw [placeholder_shape]
  rw [interpolateF]
  rw [tryPlaceholder_exact k [] hne hnb]
  rw [show ('\x7d' :: '\x7d' :: ([] : List Char)) = ['\x7d', '\x7d'] from rfl] at *
  simp only [hv]
  rw [interpolateF_nil]
  simp [mk_toList]

theorem interpolate_single_unset (store : List (String × String)) (k : String)
    (hne : k.toList ≠ []) (hnb : ∀ c ∈ k.toList, (c != '\x7d') = true)
    (hv : assocGet store (jsTrimS k) = none) :
    interpolate ("\x7b\x7b" ++ k ++ "\x7d\x7d") store = "\x7b\x7b" ++ k ++ "\x7d\x7d" := by
  unfold interpolate
  rw [placeholder_shape]
  rw [interpolateF]
  rw [tryPlaceholder_exact k [] hne hnb]
  simp only [hv]
  rw [interpolateF_nil]
  rw [show ('\x7b' :: '\x7b' :: (k.toList ++ ['\x7d', '\x7d'])) ++ ([] : List Char) =
      ("\x7b\x7b" ++ k ++ "\x7d\x7d").toList by rw [placeholder_shape]; simp]
  rw [mk_toList]

-- Claim theorems -----------------------------------------------------------

/-- C1: for a step whose failure policy parses to retry budget N and whose
dispatch fails on every attempt, dispatch is invoked exactly N + 1 times,
the loop returns the last attempt's result, and the run's result list for
that step holds exactly that final attempt's record; a first success at
attempt k within the budget stops the loop after k + 1 dispatches; and a
policy string the retry pattern does not match anywhere parses to budget
zero, so dispatch happens exactly once. -/
theorem retry_budget_and_last_attempt
    (d : Nat → StepResult) (st : WorkflowStep) (N : Nat) (wfName : String)
    (vars : List (String × String)) (ledger : List (String × StepResult))
    (acc : List StepResult)
    (hN : parseRetry st.on_fail = N) (hcond : st.condition = none) :
    ((∀ a, (d a).passed = false) →
      runStepLoop d N = (d N, N + 1) ∧
      (runWorkflow (fun _ _ a => d a) wfName [st] vars ledger acc).steps = acc ++ [d N]) ∧
    (∀ k, k ≤ N → (d k).passed = true → (∀ j, j < k → (d j).passed = false) →
      runStepLoop d N = (d k, k + 1)) ∧
    (∀ s : String, findRetry s.toList = none →
      parseRetry (some s) = 0 ∧ (runStepLoop d (parseRetry (some s))).2 = 1) := by
  refine ⟨?_, ?_, ?_⟩
  · intro hfail
    refine ⟨runStepLoop_allFail d N hfail, ?_⟩
    have hns : stepSkippedB st ledger = false := by
      simp [stepSkippedB, jsTruthyStr, hcond]
    have hloop : runStepLoop (fun a => d a) (parseRetry st.on_fail) = (d N, N + 1) := by
      rw [hN]
      exact runStepLoop_allFail d N hfail
    rw [runWorkflow_cons_noskip (fun _ _ a => d a) wfName st [] vars ledger acc hns]
    rw [hloop]
    split <;> simp [runWorkflow]
  · intro k hkN hk hbefore
    exact runStepLoop_firstSuccess d N k hkN hk hbefore
  · intro s hs
    have hp : parseRetry (some s) = 0 := by
      have hs2 : findRetry s.data = none := hs
      by_cases he : s = "" <;> simp [parseRetry, hs, hs2, he]
    exact ⟨hp, by rw [hp]; exact runStepLoop_zero_snd d⟩

/-- C1 witness: the literal policy retry limit two with an always-failing
dispatch whose output records the attempt index — three dispatches, the
run's result list holding the third attempt; and a rejected policy string
parsing to zero. -/
theorem retry_budget_and_last_attempt_w :
    runStepLoop cAttempt 2 = (cAttempt 2, 3) ∧
    (runWorkflow (fun _ _ a => cAttempt a) "wf" [cStepRetry2] [] [] []).steps = [cAttempt 2] ∧
    parseRetry (some "no-retries-here") = 0 := by
  have h := retry_budget_and_last_attempt cAttempt cStepRetry2 2 "wf" [] [] [] (by decide) rfl
  have h1 := h.1 (fun a => rfl)
  exact ⟨h1.1, by simpa using h1.2, (h.2.2 "no-retries-here" (by decide)).1⟩

/-- C2: a step that is still failed after all attempts aborts the run when
its failure policy is absent, abort, or any retry form: the result is the
failed verdict carrying the aborted step id and the accumulated results
plus this step's final attempt, and no later step of the definition
contributes a result; with the continue policy the run proceeds to the
remaining steps, the failed result only being recorded. -/
theorem abort_and_continue_policies
    (dispatch : WorkflowStep → List (String × String) → Nat → StepResult)
    (wfName : String) (st : WorkflowStep) (rest : List WorkflowStep)
    (vars : List (String × String)) (ledger : List (String × StepResult))
    (acc : List StepResult)
    (hns : stepSkippedB st ledger = false)
    (hfail : ∀ a, (dispatch st vars a).passed = false) :
    ((st.on_fail = none ∨ st.on_fail = some "abort" ∨
        jsStartsWith (st.on_fail.getD "abort") "retry" = true) →
      runWorkflow dispatch wfName (st :: rest) vars ledger acc =
        { workflowName := wfName, passed := false,
          steps := acc ++ [dispatch st vars (parseRetry st.on_fail)],
          abortedAt := some st.id } ∧
      (∀ st2 ∈ rest, st2.id ≠ st.id → st2.id ∉ acc.map StepResult.id →
        (∀ a, (dispatch st vars a).id = st.id) →
        st2.id ∉ (runWorkflow dispatch wfName (st :: rest) vars ledger acc).steps.map
          StepResult.id)) ∧
    (st.on_fail = some "continue" →
      runWorkflow dispatch wfName (st :: rest) vars ledger acc =
        runWorkflow dispatch wfName rest
          (if jsTruthyStr st.output && ((dispatch st vars 0).output != "") then
            assocSet vars (st.output.getD "") (dispatch st vars 0).output
          else vars)
          (assocSet ledger st.id (dispatch st vars 0))
          (acc ++ [dispatch st vars 0])) := by
  have hloop : runStepLoop (fun a => dispatch st vars a) (parseRetry st.on_fail) =
      (dispatch st vars (parseRetry st.on_fail), parseRetry st.on_fail + 1) :=
    runStepLoop_allFail _ _ hfail
  constructor
  · intro hpol
    have habort : abortsRun st (dispatch st vars (parseRetry st.on_fail)) = true := by
      have hp : ((st.on_fail.getD "abort") == "abort" ||
          jsStartsWith (st.on_fail.getD "abort") "retry") = true := by
        rcases hpol with h | h | h
        · simp [h]
        · simp [h]
        · simp [h]
      simp [abortsRun, hfail, hp]
    have heq : runWorkflow dispatch wfName (st :: rest) vars ledger acc =
        { workflowName := wfName, passed := false,
          steps := acc ++ [dispatch st vars (parseRetry st.on_fail)],
          abortedAt := some st.id } := by
      rw [runWorkflow_cons_noskip dispatch wfName st rest vars ledger acc hns, hloop]
      simp [habort]
    refine ⟨heq, ?_⟩
    intro st2 _hmem hne hacc hid
    rw [heq]
    intro hmem2
    simp only [List.map_append] at hmem2
    rcases List.mem_append.mp hmem2 with hL | hR
    · exact hacc hL
    · have : st2.id = st.id := by simpa [hid] using hR
      exact hne this
  · intro hc
    have h0 : parseRetry st.on_fail = 0 := by rw [hc]; decide
    have habort : abortsRun st (dispatch st vars 0) = false := by
      have h1 : ((st.on_fail.getD "abort") == "abort") = false := by rw [hc]; decide
      have h2 : jsStartsWith (st.on_fail.getD "abort") "retry" = false := by rw [hc]; decide
      simp [abortsRun, h1, h2]
    rw [runWorkflow_cons_noskip dispatch wfName st rest vars ledger acc hns]
    rw [h0] at hloop ⊢
    rw [hloop]
    simp [habort]

/-- C2 witness: a two-step workflow whose first step always fails under the
default absent policy aborts at the first step; the second step's id is
absent from the result list. -/
theorem abort_and_continue_policies_w :
    runWorkflow cDispatchFail "wf" [cStepA, cStepB] [] [] [] =
      { workflowName := "wf", passed := false,
        steps := [cDispatchFail cStepA [] 0], abortedAt := some "a" } ∧
    "b" ∉ (runWorkflow cDispatchFail "wf" [cStepA, cStepB] [] [] []).steps.map
      StepResult.id := by
  have h := abort_and_continue_policies cDispatchFail "wf" cStepA [cStepB] [] [] []
    (by decide) (fun a => rfl)
  have h1 := h.1 (Or.inl rfl)
  exact ⟨h1.1.trans (by decide), h1.2 cStepB (by simp) (by decide) (by simp) (fun a => rfl)⟩

/-- C3: a step whose condition is present (truthy) and evaluates false is
skipped: the recorded result is the passed, skipped, empty-output verdict,
the variable store is handed on unchanged so nothing is captured for the
step, and the step is never dispatched — the run is unchanged under any
dispatcher that agrees with the original on the remaining steps only. -/
theorem condition_false_skips
    (dispatch d2 : WorkflowStep → List (String × String) → Nat → StepResult)
    (wfName : String) (st : WorkflowStep) (rest : List WorkflowStep)
    (vars : List (String × String)) (ledger : List (String × StepResult))
    (acc : List StepResult)
    (hcond : jsTruthyStr st.condition = true)
    (hfalse : evaluateCondition (st.condition.getD "") ledger = false) :
    runWorkflow dispatch wfName (st :: rest) vars ledger acc =
      runWorkflow dispatch wfName rest vars
        (assocSet ledger st.id { id := st.id, passed := true, output := "", skipped := true })
        (acc ++ [{ id := st.id, passed := true, output := "", skipped := true }]) ∧
    ((∀ s ∈ rest, ∀ v a, dispatch s v a = d2 s v a) →
      runWorkflow dispatch wfName (st :: rest) vars ledger acc =
        runWorkflow d2 wfName (st :: rest) vars ledger acc) := by
  have hs : stepSkippedB st ledger = true := by
    simp [stepSkippedB, hcond, hfalse]
  refine ⟨runWorkflow_cons_skip dispatch wfName st rest vars ledger acc hs, ?_⟩
  intro hag
  rw [runWorkflow_cons_skip dispatch wfName st rest vars ledger acc hs,
      runWorkflow_cons_skip d2 wfName st rest vars ledger acc hs]
  exact runWorkflow_dispatch_congr dispatch d2 wfName rest _ _ _ hag

/-- C3 witness: a step conditional on a failed step is skipped with the
passed, skipped, empty verdict, and the run completes successfully. -/
theorem condition_false_skips_w :
    runWorkflow cDispatchFail "wf" [cStepCondB] [] [("a", cFailA)] [] =
      { workflowName := "wf", passed := true,
        steps := [{ id := "b", passed := true, output := "", skipped := true }],
        abortedAt := none } := by
  have h := condition_false_skips cDispatchFail cDispatchFail "wf" cStepCondB [] [] [("a", cFailA)]
    [] (by decide) (by decide)
  exact h.1.trans (by decide)

/-- C4: a passed or skipped step reference whose id has no ledger entry
substitutes to the false literal, and such a bare passed terminal evaluates
to false end to end; any condition whose substituted text is empty or
keeps a character outside the safety class evaluates to false; evaluation
is a total boolean function by construction, so it never throws. -/
theorem condition_substitution_safety
    (ledger : List (String × StepResult)) (idStr cond : String)
    (hne : idStr.toList ≠ []) (hall : ∀ c ∈ idStr.toList, isIdChar c = true)
    (hnone : assocGet ledger idStr = none) :
    substRefs ".passed".toList
      (fun idName => match assocGet ledger idName with
        | some r => jsBoolStr r.passed
        | none => "false") ("steps." ++ idStr ++ ".passed").toList = "false".toList ∧
    substRefs ".skipped".toList
      (fun idName => match assocGet ledger idName with
        | some r => jsBoolStr r.skipped
        | none => "false") ("steps." ++ idStr ++ ".skipped").toList = "false".toList ∧
    evaluateCondition ("steps." ++ idStr ++ ".passed") ledger = false ∧
    ((substCond cond ledger).all safeChar = false → evaluateCondition cond ledger = false) ∧
    ((substCond cond ledger).isEmpty = true → evaluateCondition cond ledger = false) := by
  have hshape : ∀ suf : String, ("steps." ++ idStr ++ suf).toList =
      "steps.".toList ++ (idStr.toList ++ suf.toList) := by
    intro suf
    rw [toList_append, toList_append]
    simp [List.append_assoc]
  have hheadp : ∀ c : Char, (".passed".toList).head? = some c → isIdChar c = false := by
    intro c hc
    rw [show (".passed".toList).head? = some '.' from rfl] at hc
    injection hc with h
    subst h
    decide
  have hheads : ∀ c : Char, (".skipped".toList).head? = some c → isIdChar c = false := by
    intro c hc
    rw [show (".skipped".toList).head? = some '.' from rfl] at hc
    injection hc with h
    subst h
    decide
  refine ⟨?_, ?_, ?_, ?_, ?_⟩
  · rw [hshape ".passed", substRefs_exact _ _ idStr hne hall hheadp]
    simp [hnone]
  · rw [hshape ".skipped", substRefs_exact _ _ idStr hne hall hheads]
    simp [hnone]
  · have h1 : substCond ("steps." ++ idStr ++ ".passed") ledger = "false".toList := by
      simp only [substCond]
      rw [hshape ".passed", substRefs_exact _ _ idStr hne hall hheadp]
      simp only [hnone]
      rfl
    simp only [evaluateCondition]
    rw [h1]
    decide
  · intro hb
    simp only [evaluateCondition]
    rw [hb]
    simp
  · intro he
    simp only [evaluateCondition]
    rw [he]
    simp

/-- C4 witness: a reference to an absent step id evaluates to false, and an
arithmetic expression is rejected as unsafe and evaluates to false. -/
theorem condition_substitution_safety_w :
    evaluateCondition "steps.ghost.passed" [] = false ∧
    evaluateCondition "1 + 1" [] = false := by
  have h := condition_substitution_safety [] "ghost" "1 + 1" (by decide) (by decide) (by decide)
  exact ⟨h.2.2.1, h.2.2.2.1 (by decide)⟩

/-- C5 counterexample: a step of unknown kind with the literal retry limit
two fails with a reason naming the unknown kind, yet its failing dispatch
is re-attempted: three invocations, not one. -/
theorem config_error_is_retried :
    (runStep cEnvBasic cStepWeird []).1.passed = false ∧
    (runStep cEnvBasic cStepWeird []).1.failReason = some "unknown type: weird" ∧
    parseRetry cStepWeird.on_fail = 2 ∧
    (runStepLoop (fun _ => (runStep cEnvBasic cStepWeird []).1)
      (parseRetry cStepWeird.on_fail)).2 = 3 := by decide

/-- C5 amended: a configuration error — an unknown step kind, a missing
persona document for an agent step, or a missing prompt document for a
prompt step — fails the dispatch attempt at once with a failure reason
naming the missing resource, but such failures are not exempt from
retrying: under any policy parsing to budget N the failing dispatch is
re-attempted like any other failure, N + 1 invocations in total. -/
theorem config_error_fails_but_is_retried
    (env : StepEnv) (st : WorkflowStep) (vars : List (String × String)) (N : Nat)
    (hN : parseRetry st.on_fail = N) :
    (st.type ≠ "agent" → st.type ≠ "prompt" → st.type ≠ "shell" →
      runStep env st vars =
        ({ id := st.id, passed := false, output := "", skipped := false,
           failReason := some ("unknown type: " ++ st.type) }, 0) ∧
      (runStepLoop (fun _ => (runStep env st vars).1) N).2 = N + 1) ∧
    (st.type = "agent" → env.agentBody (st.agent.getD "") = "" →
      runStep env st vars =
        ({ id := st.id, passed := false, output := "", skipped := false,
           failReason :=
             some (".github/agents/" ++ st.agent.getD "" ++ ".agent.md not found") }, 0) ∧
      (runStepLoop (fun _ => (runStep env st vars).1) N).2 = N + 1) ∧
    (st.type = "prompt" → env.hasWorkspace = true →
      env.promptContent (st.prompt.getD "") = none →
      runStep env st vars =
        ({ id := st.id, passed := false, output := "", skipped := false,
           failReason := some ("Prompt file not found: " ++ st.prompt.getD "") }, 0) ∧
      (runStepLoop (fun _ => (runStep env st vars).1) N).2 = N + 1) := by
  refine ⟨?_, ?_, ?_⟩
  · intro h1 h2 h3
    have heq : runStep env st vars =
        ({ id := st.id, passed := false, output := "", skipped := false,
           failReason := some ("unknown type: " ++ st.type) }, 0) := by
      simp [runStep, h1, h2, h3]
    refine ⟨heq, ?_⟩
    have hfail : ∀ a : Nat, ((fun _ => (runStep env st vars).1) a).passed = false := by
      intro a
      rw [heq]
    rw [runStepLoop_allFail _ N hfail]
  · intro h1 h2
    have heq : runStep env st vars =
        ({ id := st.id, passed := false, output := "", skipped := false,
           failReason :=
             some (".github/agents/" ++ st.agent.getD "" ++ ".agent.md not found") }, 0) := by
      simp [runStep, h1, runAgentStep, h2]
    refine ⟨heq, ?_⟩
    have hfail : ∀ a : Nat, ((fun _ => (runStep env st vars).1) a).passed = false := by
      intro a
      rw [heq]
    rw [runStepLoop_allFail _ N hfail]
  · intro h1 h2 h3
    have heq : runStep env st vars =
        ({ id := st.id, passed := false, output := "", skipped := false,
           failReason := some ("Prompt file not found: " ++ st.prompt.getD "") }, 0) := by
      simp [runStep, h1, runPromptStep, h2, h3]
    refine ⟨heq, ?_⟩
    have hfail : ∀ a : Nat, ((fun _ => (runStep env st vars).1) a).passed = false := by
      intro a
      rw [heq]
    rw [runStepLoop_allFail _ N hfail]

/-- C5 witness: the unknown-kind step with retry limit two dispatched three
times; an agent step whose persona document is missing failing with a
reason naming the missing file; and a prompt step whose prompt document is
missing failing with a reason naming it and, under a one-retry policy,
dispatched twice. -/
theorem config_error_fails_but_is_retried_w :
    runStep cEnvBasic cStepWeird [] =
      ({ id := "w", passed := false, output := "", skipped := false,
         failReason := some "unknown type: weird" }, 0) ∧
    (runStepLoop (fun _ => (runStep cEnvBasic cStepWeird []).1) 2).2 = 3 ∧
    (runStep cEnvBasic cStepAgentNoExpect []).1.failReason =
      some ".github/agents/rev.agent.md not found" ∧
    (runStep cEnvBasic cStepPromptRetry []).1.failReason =
      some "Prompt file not found: f.md" ∧
    (runStepLoop (fun _ => (runStep cEnvBasic cStepPromptRetry []).1) 1).2 = 2 := by
  have h := config_error_fails_but_is_retried cEnvBasic cStepWeird [] 2 (by decide)
  have h1 := h.1 (by decide) (by decide) (by decide)
  have h2 := config_error_fails_but_is_retried cEnvBasic cStepAgentNoExpect [] 0 (by decide)
  have h3 := (h2.2.1 rfl rfl).1
  have h4 := config_error_fails_but_is_retried cEnvBasic cStepPromptRetry [] 1 (by decide)
  have h5 := h4.2.2 rfl rfl rfl
  refine ⟨h1.1.trans (by decide), h1.2, ?_, ?_, h5.2⟩
  · rw [h3]
    decide
  · rw [h5.1]
    decide

/-- C6 counterexample: a remote URL containing the substring github but not
github.com is classified unknown rather than github, so detection is not
the bare-name substring matching the claim enumerates. -/
theorem platform_github_substring_refuted :
    jsIncludes (toLowerS "ssh://mygithub.dev/repo") "github" = true ∧
    detectPlatform "ssh://mygithub.dev/repo" = "unknown" := by decide

/-- C6 amended: detection checks, in order: the substring github.com gives
github; else gitlab.com or gitlab gives gitlab; else bitbucket.org gives
bitbucket; else the 29418 port, the authenticated path segment, or the
gerrit substring give gerrit; else unknown — the github and bitbucket
checks need the full host substrings, not the bare platform names.  The
push command uses the review ref exactly for the gerrit identifier and the
plain branch for every other identifier. -/
theorem platform_detection_amended (url branch p : String) :
    (jsIncludes (toLowerS url) "github.com" = true → detectPlatform url = "github") ∧
    (jsIncludes (toLowerS url) "github.com" = false →
      (jsIncludes (toLowerS url) "gitlab.com" || jsIncludes (toLowerS url) "gitlab") = true →
      detectPlatform url = "gitlab") ∧
    (jsIncludes (toLowerS url) "github.com" = false →
      (jsIncludes (toLowerS url) "gitlab.com" || jsIncludes (toLowerS url) "gitlab") = false →
      jsIncludes (toLowerS url) "bitbucket.org" = true →
      detectPlatform url = "bitbucket") ∧
    (jsIncludes (toLowerS url) "github.com" = false →
      (jsIncludes (toLowerS url) "gitlab.com" || jsIncludes (toLowerS url) "gitlab") = false →
      jsIncludes (toLowerS url) "bitbucket.org" = false →
      (jsIncludes (toLowerS url) ":29418" || jsIncludes (toLowerS url) "/a/" ||
        jsIncludes (toLowerS url) "gerrit") = true →
      detectPlatform url = "gerrit") ∧
    (jsIncludes (toLowerS url) "github.com" = false →
      (jsIncludes (toLowerS url) "gitlab.com" || jsIncludes (toLowerS url) "gitlab") = false →
      jsIncludes (toLowerS url) "bitbucket.org" = false →
      (jsIncludes (toLowerS url) ":29418" || jsIncludes (toLowerS url) "/a/" ||
        jsIncludes (toLowerS url) "gerrit") = false →
      detectPlatform url = "unknown") ∧
    buildPushCmd "gerrit" branch = "git push origin HEAD:refs/for/" ++ branch ∧
    (p ≠ "gerrit" → buildPushCmd p branch = "git push origin HEAD:" ++ branch) := by
  refine ⟨?_, ?_, ?_, ?_, ?_, ?_, ?_⟩
  · intro h1
    simp [detectPlatform, h1]
  · intro h1 h2
    simp [detectPlatform, h1, h2]
  · intro h1 h2 h3
    simp [detectPlatform, h1, h2, h3]
  · intro h1 h2 h3 h4
    simp [detectPlatform, h1, h2, h3, h4]
  · intro h1 h2 h3 h4
    simp [detectPlatform, h1, h2, h3, h4]
  · simp [buildPushCmd]
  · intro hp
    by_cases hg1 : p = "github"
    · simp [buildPushCmd, hg1]
    · by_cases hg2 : p = "gitlab"
      · simp [buildPushCmd, hg1, hg2]
      · by_cases hg3 : p = "bitbucket"
        · simp [buildPushCmd, hg1, hg2, hg3]
        · simp [buildPushCmd, hg1, hg2, hg3, hp]

/-- C6 amended witness: a 29418-port URL is gerrit with the review-ref push
command, a github.com URL is github, and an unknown platform pushes the
plain branch. -/
theorem platform_detection_amended_w :
    detectPlatform "ssh://user@review.example.com:29418/proj" = "gerrit" ∧
    buildPushCmd "gerrit" "main" = "git push origin HEAD:refs/for/main" ∧
    detectPlatform "https://github.com/me/repo.git" = "github" ∧
    buildPushCmd "unknown" "main" = "git push origin HEAD:main" := by
  have h1 := platform_detection_amended "ssh://user@review.example.com:29418/proj" "main" "unknown"
  have h2 := platform_detection_amended "https://github.com/me/repo.git" "main" "unknown"
  refine ⟨h1.2.2.2.1 (by decide) (by decide) (by decide) (by decide), ?_,
    h2.1 (by decide), ?_⟩
  · exact h1.2.2.2.2.2.1.trans (by decide)
  · exact (h1.2.2.2.2.2.2 (by decide)).trans (by decide)

/-- C7 counterexample: an agent step with no expected substring passes even
though the default pass marker never occurs in the model's response — the
response even carries the explicit failure marker. -/
theorem no_default_marker_check :
    jsIncludes (cEnvAgent.llm []) "[PASS]" = false ∧
    jsIncludes (cEnvAgent.llm []) "[FAIL]" = true ∧
    (runAgentStep cEnvAgent cStepAgentNoExpect []).1.passed = true := by decide

/-- C7 amended: the pass signal is the presence of the step's expected
substring in the concatenated response when one is set and nonempty; when
it is unset the check passes unconditionally — there is no default-marker
test — so an agent step with no expected substring passes whatever the
response contains. -/
theorem expect_check_amended (env : StepEnv) (st : WorkflowStep)
    (vars : List (String × String)) (out e : String)
    (hbody : env.agentBody (st.agent.getD "") ≠ "")
    (hinput : st.input = none)
    (hmodel : env.modelAvailable = true) :
    checkExpect out none = true ∧
    (e ≠ "" → checkExpect out (some e) = jsIncludes out e) ∧
    (runAgentStep env st vars).1.passed =
      checkExpect (env.llm [agentSystemMsg (env.agentBody (st.agent.getD "")),
        agentDiffMsg (resolveInput env.exec0 st.input vars)]) st.expect := by
  refine ⟨rfl, ?_, ?_⟩
  · intro he
    simp [checkExpect, jsTruthyStr, he]
  · have hres : resolveInput env.exec0 st.input vars = "" := by
      rw [hinput]
      rfl
    rw [hres]
    by_cases hce : checkExpect (env.llm [agentSystemMsg (env.agentBody (st.agent.getD "")),
        agentDiffMsg ""]) st.expect = true
    · simp [runAgentStep, hbody, hinput, resolveInput, hmodel, hce, jsTruthyStr]
    · have hce2 : checkExpect (env.llm [agentSystemMsg (env.agentBody (st.agent.getD "")),
          agentDiffMsg ""]) st.expect = false := by
        simpa using hce
      simp [runAgentStep, hbody, hinput, resolveInput, hmodel, hce2, jsTruthyStr]

/-- C7 amended witness: the unset expectation passes unconditionally, a set
expectation is the substring test, and the concrete marker-free agent run
passes. -/
theorem expect_check_amended_w :
    checkExpect "whatever" none = true ∧
    checkExpect "has [PASS] inside" (some "[PASS]") = true ∧
    (runAgentStep cEnvAgent cStepAgentNoExpect []).1.passed = true := by
  have h := expect_check_amended cEnvAgent cStepAgentNoExpect [] "whatever" "[PASS]"
    (by decide) rfl rfl
  have hB := expect_check_amended cEnvAgent cStepAgentNoExpect [] "has [PASS] inside" "[PASS]"
    (by decide) rfl rfl
  refine ⟨h.1, ?_, ?_⟩
  · rw [hB.2.1 (by decide)]
    decide
  · rw [h.2.2]
    decide

/-- C8 counterexample: a prompt step whose input is the staged diff and
resolves to empty issues no auto-remediation — zero staging attempts — and
is not failed with the no-changes reason: it proceeds and passes. -/
theorem prompt_step_no_autostage :
    cStepPromptStaged.input = some "git_diff_staged" ∧
    jsTrimS (resolveInput cEnvStaged.exec0 cStepPromptStaged.input []) = "" ∧
    runPromptStep cEnvStaged cStepPromptStaged [] =
      ({ id := "p", passed := true, output := "summary", skipped := false }, 0) := by decide

/-- C8 amended: the staged-diff auto-remediation is an agent-step behavior
only: an agent step whose staged-diff input trims to empty issues exactly
one staging attempt and one re-resolution, failing with the no-changes
reason when the re-resolved text is still blank; a prompt step never
issues a staging attempt; and a shell step's outcome is independent of its
input field. -/
theorem autostage_agent_only (env : StepEnv) (st : WorkflowStep)
    (vars : List (String × String))
    (hin : st.input = some "git_diff_staged")
    (hbody : env.agentBody (st.agent.getD "") ≠ "")
    (h0 : jsTrimS (resolveInput env.exec0 st.input vars) = "")
    (hok : env.addUOk = true)
    (h1 : jsTrimS (resolveInput env.exec1 st.input vars) = "") :
    runAgentStep env st vars =
      ({ id := st.id, passed := false, output := "", skipped := false,
         failReason := some "No changes to stage — working tree is clean" }, 1) ∧
    (∀ stp varsp, (runPromptStep env stp varsp).2 = 0) ∧
    (∀ s2 : WorkflowStep, ∀ i1 i2 : Option String, ∀ varsp,
      runShellStep env { s2 with input := i1 } varsp =
        runShellStep env { s2 with input := i2 } varsp) := by
  refine ⟨?_, ?_, ?_⟩
  · have h0b : jsTrimS (resolveInput env.exec0 (some "git_diff_staged") vars) = "" := by
      rw [← hin]
      exact h0
    have h1b : jsTrimS (resolveInput env.exec1 (some "git_diff_staged") vars) = "" := by
      rw [← hin]
      exact h1
    simp [runAgentStep, hbody, hin, h0b, h1b, hok, jsTruthyStr]
  · intro stp varsp
    unfold runPromptStep
    repeat' split
    all_goals try rfl
    all_goals dsimp only
    all_goals repeat' split
    all_goals rfl
  · intro s2 i1 i2 varsp
    rfl

/-- C8 amended witness: the concrete empty-staged world — the agent step
fails with the no-changes reason after exactly one staging attempt, while
the prompt step in the same world issues none. -/
theorem autostage_agent_only_w :
    runAgentStep cEnvStaged cStepAgentStaged [] =
      ({ id := "s", passed := false, output := "", skipped := false,
         failReason := some "No changes to stage — working tree is clean" }, 1) ∧
    (runPromptStep cEnvStaged cStepPromptStaged []).2 = 0 := by
  have h := autostage_agent_only cEnvStaged cStepAgentStaged [] rfl (by decide) (by decide)
    rfl (by decide)
  exact ⟨h.1.trans (by decide), h.2.1 cStepPromptStaged []⟩

/-- C9: interpolation replaces a placeholder whose trimmed key is bound by
the stored value, leaves the whole placeholder text verbatim when the key
is unbound, and returns any text without a placeholder unchanged;
substitution is single-pass — a substituted value that itself looks like a
placeholder is not substituted again — and every occurrence is replaced,
as the multi-occurrence instance shows. -/
theorem interpolate_spec (store : List (String × String)) (t k v : String)
    (hne : k.toList ≠ []) (hnb : ∀ c ∈ k.toList, (c != '\x7d') = true) :
    (hasPlaceholder t.toList = false → interpolate t store = t) ∧
    (assocGet store (jsTrimS k) = some v →
      interpolate ("\x7b\x7b" ++ k ++ "\x7d\x7d") store = v) ∧
    (assocGet store (jsTrimS k) = none →
      interpolate ("\x7b\x7b" ++ k ++ "\x7d\x7d") store = "\x7b\x7b" ++ k ++ "\x7d\x7d") ∧
    interpolate "x\x7b\x7ba\x7d\x7dy\x7b\x7bb\x7d\x7dz" [("a", "1"), ("b", "2")] = "x1y2z" ∧
    interpolate "\x7b\x7ba\x7d\x7d" [("a", "\x7b\x7bb\x7d\x7d"), ("b", "X")] =
      "\x7b\x7bb\x7d\x7d" := by
  exact ⟨fun h => interpolate_no_placeholder store t h,
    fun hv => interpolate_single_set store k v hne hnb hv,
    fun hv => interpolate_single_unset store k hne hnb hv,
    by decide, by decide⟩

/-- C9 witness: a bound key with surrounding whitespace resolves through
the trimmed name, an unbound key stays verbatim, and placeholder-free text
is unchanged. -/
theorem interpolate_spec_w :
    interpolate "\x7b\x7b key \x7d\x7d" [("key", "val")] = "val" ∧
    interpolate "\x7b\x7bmissing\x7d\x7d" [("key", "val")] = "\x7b\x7bmissing\x7d\x7d" ∧
    interpolate "plain text" [("key", "val")] = "plain text" := by
  have h1 := interpolate_spec [("key", "val")] "plain text" " key " "val" (by decide) (by decide)
  have h2 := interpolate_spec [("key", "val")] "plain text" "missing" "val" (by decide) (by decide)
  exact ⟨h1.2.1 (by decide), h2.2.2.1 (by decide), h1.1 (by decide)⟩

/-- C10 counterexample: a policy string that is neither abort nor continue
and does not start with retry, yet contains the retry pattern, parses to
budget one, so an always-failing dispatch runs twice, not exactly once. -/
theorem nonprefix_retry_pattern_dispatches_twice :
    ("noretry(max: 1)" ≠ "abort" ∧ "noretry(max: 1)" ≠ "continue" ∧
      jsStartsWith "noretry(max: 1)" "retry" = false) ∧
    parseRetry (some "noretry(max: 1)") = 1 ∧
    (runStepLoop (fun _ => cFailR) (parseRetry (some "noretry(max: 1)"))).2 = 2 := by decide

/-- C10 amended: a step whose policy string is neither abort nor a string
starting with retry never aborts the run — whatever its outcome the run
proceeds to the remaining steps exactly as for continue — and it is
dispatched exactly once provided the policy string does not contain the
retry pattern anywhere, as with the misspelled policy ignore. -/
theorem unrecognized_policy_continues
    (dispatch : WorkflowStep → List (String × String) → Nat → StepResult)
    (wfName : String) (st : WorkflowStep) (rest : List WorkflowStep)
    (vars : List (String × String)) (ledger : List (String × StepResult))
    (acc : List StepResult) (p : String)
    (hp : st.on_fail = some p) (h1 : p ≠ "abort")
    (h2 : jsStartsWith p "retry" = false)
    (hns : stepSkippedB st ledger = false) :
    runWorkflow dispatch wfName (st :: rest) vars ledger acc =
      runWorkflow dispatch wfName rest
        (if jsTruthyStr st.output &&
            (((runStepLoop (fun a => dispatch st vars a)
                (parseRetry st.on_fail)).1).output != "") then
          assocSet vars (st.output.getD "")
            ((runStepLoop (fun a => dispatch st vars a) (parseRetry st.on_fail)).1).output
        else vars)
        (assocSet ledger st.id
          ((runStepLoop (fun a => dispatch st vars a) (parseRetry st.on_fail)).1))
        (acc ++ [(runStepLoop (fun a => dispatch st vars a) (parseRetry st.on_fail)).1]) ∧
    (findRetry p.toList = none →
      (runStepLoop (fun a => dispatch st vars a) (parseRetry st.on_fail)).2 = 1) := by
  constructor
  · have hb1 : ((st.on_fail.getD "abort") == "abort") = false := by
      rw [hp]
      exact beq_eq_false_iff_ne.mpr h1
    have hb2 : jsStartsWith (st.on_fail.getD "abort") "retry" = false := by
      rw [hp]
      exact h2
    have habort : abortsRun st
        ((runStepLoop (fun a => dispatch st vars a) (parseRetry st.on_fail)).1) = false := by
      simp [abortsRun, hb1, hb2]
    rw [runWorkflow_cons_noskip dispatch wfName st rest vars ledger acc hns]
    simp [habort]
  · intro hf
    have hps : parseRetry st.on_fail = 0 := by
      rw [hp]
      have hf2 : findRetry p.data = none := hf
      by_cases he : p = "" <;> simp [parseRetry, hf, hf2, he]
    rw [hps]
    exact runStepLoop_zero_snd _

/-- C10 amended witness: the misspelled policy ignore — the failing first
step is dispatched once and does not abort; the run proceeds and aborts
only at the second step, whose policy is the absent default. -/
theorem unrecognized_policy_continues_w :
    runWorkflow cDispatchFail "wf" [cStepIgnore, cStepB] [] [] [] =
      { workflowName := "wf", passed := false,
        steps := [cDispatchFail cStepIgnore [] 0, cDispatchFail cStepB [] 0],
        abortedAt := some "b" } ∧
    (runStepLoop (fun a => cDispatchFail cStepIgnore [] a)
      (parseRetry cStepIgnore.on_fail)).2 = 1 := by
  have h := unrecognized_policy_continues cDispatchFail "wf" cStepIgnore [cStepB] [] [] []
    "ignore" rfl (by decide) (by decide) (by decide)
  exact ⟨h.1.trans (by decide), h.2 (by decide)⟩
